import Mathlib

/-!
Verification of the fair-data-protocol client-side storage layer.

This file gives a shallow embedding of the repository's core operations:
file block upload/download (`src/file/handler.ts`, `src/file/file.ts`),
directory entry maintenance (`src/content-items/handler.ts`,
`src/directory/handler.ts`), the pod list (`PersonalStorage`), and the
feed write layer (`src/feed/api.ts` and its raw variant), together with
theorems about round trips, error behaviour and manifest invariants.

Bytes are modelled as `List Nat`.  Chunk-store references are indices
into an append-only list of chunks.  Helper utilities of the repository
that are not part of the provided sources (encryption primitives, path
helpers, pod-name validation) are modelled from the specification and
are marked as such in their doc comments.
-/

namespace Fdp

/-- Byte strings are lists of naturals (byte values). -/
abbrev Bytes := List Nat

/-- File prefix token, from `src/file/handler.ts`. -/
def FILE_TOKEN : String := "_F_"

/-- Directory prefix token, from `src/file/handler.ts`. -/
def DIRECTORY_TOKEN : String := "_D_"

/-- One entry of a blocks manifest: `{name?, size, compressedSize, reference}`. -/
structure FileBlock where
  name : Option String
  size : Nat
  compressedSize : Nat
  reference : Nat
deriving Repr, DecidableEq

/-- A chunk stored in the content-addressed store.  Raw byte payloads and
encoded block manifests are distinguished symbolically; the JSON
encoding/decoding of manifests (`blocksToManifest` /
`downloadBlocksManifest`) is kept abstract as a constructor. -/
inductive Chunk where
  | raw (bytes : Bytes)
  | manifest (blocks : List FileBlock)
deriving Repr, DecidableEq

/-- `Math.ceil(len / blockSize)` over naturals: the number of blocks of a
payload of length `len` at block size `b`. -/
def totalBlocksCount (len b : Nat) : Nat := (len + b - 1) / b

/-- `data.slice(i * blockSize, (i + 1) * blockSize)`: the `i`-th block of
payload `p` at block size `b`. -/
def blockSlice (p : Bytes) (b i : Nat) : Bytes := (p.drop (i * b)).take b

/-- The list of all block slices of a payload, in index order. -/
def chunkSlices (p : Bytes) (b : Nat) : List Bytes :=
  (List.range (totalBlocksCount p.length b)).map (blockSlice p b)

/-- The manifest record for block `i` when the store length before the block
uploads was `base`: `{size, compressedSize, reference}` with the slice
length and the reference of the freshly uploaded chunk. -/
def blockRec (p : Bytes) (b base i : Nat) : FileBlock :=
  { name := none, size := (blockSlice p b i).length,
    compressedSize := (blockSlice p b i).length, reference := base + i }

theorem totalBlocksCount_zero (b : Nat) (hb : 0 < b) : totalBlocksCount 0 b = 0 := by
  unfold totalBlocksCount
  exact Nat.div_eq_of_lt (by omega)

theorem totalBlocksCount_succ (n b : Nat) (hb : 0 < b) (hn : 0 < n) :
    totalBlocksCount n b = totalBlocksCount (n - b) b + 1 := by
  unfold totalBlocksCount
  rcases le_or_lt n b with h | h
  · have h0 : n - b = 0 := by omega
    rw [h0]
    have hr : (0 + b - 1) / b = 0 := Nat.div_eq_of_lt (by omega)
    rw [hr]
    have h1 : n + b - 1 = (n - 1) + b * 1 := by omega
    rw [h1, Nat.add_mul_div_left _ _ hb]
    have h2 : (n - 1) / b = 0 := Nat.div_eq_of_lt (by omega)
    omega
  · have h1 : n + b - 1 = (n - 1) + b := by omega
    have h2 : n - b + b - 1 = n - 1 := by omega
    rw [h1, h2, Nat.add_div_right _ hb]

theorem chunkSlices_nil (b : Nat) (hb : 0 < b) : chunkSlices [] b = [] := by
  unfold chunkSlices
  rw [show ([] : Bytes).length = 0 from rfl, totalBlocksCount_zero b hb]
  rfl

theorem blockSlice_succ (p : Bytes) (b i : Nat) :
    blockSlice p b (i + 1) = blockSlice (p.drop b) b i := by
  unfold blockSlice
  rw [List.drop_drop, Nat.succ_mul, Nat.add_comm (i * b) b]

theorem chunkSlices_cons (p : Bytes) (b : Nat) (hb : 0 < b) (hp : p ≠ []) :
    chunkSlices p b = p.take b :: chunkSlices (p.drop b) b := by
  unfold chunkSlices
  have hn : 0 < p.length := List.length_pos.mpr hp
  rw [List.length_drop, totalBlocksCount_succ p.length b hb hn,
    List.range_succ_eq_map, List.map_cons, List.map_map]
  congr 1
  · unfold blockSlice
    rw [Nat.zero_mul, List.drop_zero]
  · apply List.map_congr_left
    intro i _
    exact blockSlice_succ p b i

/-- Concatenating the block slices in index order reconstructs the payload. -/
theorem chunkSlices_flatten (b : Nat) (hb : 0 < b) :
    ∀ (n : Nat) (p : Bytes), p.length ≤ n → (chunkSlices p b).flatten = p := by
  intro n
  induction n with
  | zero =>
    intro p hp
    have : p = [] := List.length_eq_zero.mp (by omega)
    rw [this, chunkSlices_nil b hb]
    rfl
  | succ n ih =>
    intro p hp
    by_cases hpn : p = []
    · rw [hpn, chunkSlices_nil b hb]; rfl
    · rw [chunkSlices_cons p b hb hpn, List.flatten_cons]
      have hlen : (p.drop b).length ≤ n := by
        rw [List.length_drop]
        have : 0 < p.length := List.length_pos.mpr hpn
        omega
      rw [ih (p.drop b) hlen, List.take_append_drop]

/-- The slice lengths sum to the payload length. -/
theorem chunkSlices_length_sum (p : Bytes) (b : Nat) (hb : 0 < b) :
    ((chunkSlices p b).map List.length).sum = p.length := by
  have h := chunkSlices_flatten b hb p.length p (le_refl _)
  calc ((chunkSlices p b).map List.length).sum
      = ((chunkSlices p b).flatten).length := (List.length_flatten _).symm
    _ = p.length := by rw [h]

/-! ## Feed and state model

Metadata lives in single-owner feeds keyed by a topic (a path string).
Each topic holds the latest written value together with a version
counter standing for the epoch chain: every write advances the counter,
modelling that a write lands at a fresh epoch address and never mutates
an older version in place. -/

/-- `meta` part of `RawDirectoryMetadata` (src/pod/types.ts). -/
structure DirMetaInner where
  version : Nat
  path : String
  name : String
  creationTime : Nat
  modificationTime : Nat
  accessTime : Nat
deriving Repr, DecidableEq

/-- `RawDirectoryMetadata` (src/pod/types.ts); `fileOrDirNames` may be `null`. -/
structure RawDirectoryMetadata where
  meta : DirMetaInner
  fileOrDirNames : Option (List String)
deriving Repr, DecidableEq

/-- `FileMetadata` (src/pod/types.ts); the blocks reference is an index into
the chunk store. -/
structure FileMetadata where
  version : Nat
  filePath : String
  fileName : String
  fileSize : Nat
  blockSize : Nat
  contentType : String
  compression : String
  creationTime : Nat
  accessTime : Nat
  modificationTime : Nat
  blocksReference : Nat
deriving Repr, DecidableEq

/-- A decoded feed payload: directory metadata or file metadata. -/
inductive FeedVal where
  | dir (d : RawDirectoryMetadata)
  | file (f : FileMetadata)
deriving Repr, DecidableEq

/-- The client-visible state: feeds (topic, version, latest value) plus the
append-only content-addressed chunk store (references are indices). -/
structure FdpState where
  feeds : List (String × Nat × FeedVal)
  store : List Chunk
deriving Repr

/-- Latest value of a topic, with its version (the lookup algorithm's result). -/
def feedsLookup (feeds : List (String × Nat × FeedVal)) (topic : String) : Option (Nat × FeedVal) :=
  (feeds.find? (fun e => e.1 == topic)).map (fun e => e.2)

/-- The version a write to `topic` gets (the next epoch of the chain). -/
def nextVersion (feeds : List (String × Nat × FeedVal)) (topic : String) : Nat :=
  match feedsLookup feeds topic with
  | some (n, _) => n + 1
  | none => 1

/-- Writing a topic at the next epoch: replaces the latest value and advances
the version counter. -/
def feedsWrite (feeds : List (String × Nat × FeedVal)) (topic : String) (v : FeedVal) :
    List (String × Nat × FeedVal) :=
  feeds.filter (fun e => e.1 != topic) ++ [(topic, nextVersion feeds topic, v)]

/-- Outcome of a state-changing operation: result, resulting state, and the
feed topics written, in order (used to express "no feed write happened"). -/
structure OpResult (α : Type) where
  res : Except String α
  state : FdpState
  writes : List String
deriving Repr

/-- Modelled from the spec: the path join helper `combine` of
`src/directory/utils.ts` (not included in the provided sources).  Joins a
parent path and a child name with `/`, treating the root `"/"` specially. -/
def combine (parentPath entryName : String) : String :=
  if parentPath = "/" then parentPath ++ entryName else parentPath ++ "/" ++ entryName

/-- Embedding of `addEntryToDirectory` (src/content-items/handler.ts).
The existence probe `assertItemIsNotExists` and the parent fetch
`getRawMetadata` are feed lookups; the `try/catch` around the parent fetch
maps any failure to `Parent directory does not exist`. -/
def addEntryToDirectory (st : FdpState) (now : Nat) (parentPath entryPath : String)
    (isFile : Bool) : OpResult Unit :=
  if parentPath = "" then ⟨Except.error ("Incorrect parent path"), st, []⟩
  else if entryPath = "" then ⟨Except.error ("Incorrect entry path"), st, []⟩
  else
    let itemText := if isFile then "File" else "Directory"
    let fullPath := combine parentPath entryPath
    if (feedsLookup st.feeds fullPath).isSome then
      ⟨Except.error (itemText ++ " \"" ++ fullPath ++ "\" already uploaded to the network"), st, []⟩
    else
      match feedsLookup st.feeds parentPath with
      | some (_, FeedVal.dir parentData) =>
        let itemToAdd := (if isFile then FILE_TOKEN else DIRECTORY_TOKEN) ++ entryPath
        let names := parentData.fileOrDirNames.getD []
        if itemToAdd ∈ names then
          ⟨Except.error (itemText ++ " already listed in the parent directory list"), st, []⟩
        else
          let parentData' : RawDirectoryMetadata :=
            { meta := { parentData.meta with modificationTime := now },
              fileOrDirNames := some (names ++ [itemToAdd]) }
          ⟨Except.ok (),
           { st with feeds := feedsWrite st.feeds parentPath (FeedVal.dir parentData') },
           [parentPath]⟩
      | _ => ⟨Except.error ("Parent directory does not exist"), st, []⟩

/-- Embedding of `removeEntryFromDirectory` (src/content-items/handler.ts):
fetch the parent, filter the entry out of `fileOrDirNames`, and rewrite the
parent at its next epoch.  Note the source performs the rewrite whether or
not the entry was present. -/
def removeEntryFromDirectory (st : FdpState) (parentPath entryPath : String)
    (isFile : Bool) : OpResult Unit :=
  match feedsLookup st.feeds parentPath with
  | none => ⟨Except.error ("Data not found"), st, []⟩
  | some (_, FeedVal.file _) => ⟨Except.error ("Invalid raw directory metadata"), st, []⟩
  | some (_, FeedVal.dir parentData) =>
    let itemToRemove := (if isFile then FILE_TOKEN else DIRECTORY_TOKEN) ++ entryPath
    let parentData' : RawDirectoryMetadata :=
      { parentData with
        fileOrDirNames := parentData.fileOrDirNames.map (fun l => l.filter (fun nm => nm != itemToRemove)) }
    ⟨Except.ok (),
     { st with feeds := feedsWrite st.feeds parentPath (FeedVal.dir parentData') },
     [parentPath]⟩

/-- `MAX_DIRECTORY_NAME_LENGTH` (src/directory/handler.ts). -/
def MAX_DIRECTORY_NAME_LENGTH : Nat := 100

/-- Modelled from the spec: directory-name validation (`assertDirectoryName`
of `src/directory/utils.ts`, not included in the provided sources): the name
must be non-empty, contain no `/`, and stay within the maximum length. -/
def assertDirectoryName (name : String) : Except String Unit :=
  if name = "" then Except.error ("Name is empty")
  else if name.data.contains '/' then Except.error ("Name contains a slash")
  else if name.length > MAX_DIRECTORY_NAME_LENGTH then Except.error ("Directory name is too long")
  else Except.ok ()

/-- `META_VERSION` (src/pod/utils.ts). -/
def META_VERSION : Nat := 1

/-- Modelled from the spec: `createRawDirectoryMetadata` (src/pod/utils.ts,
not included in the provided sources): fresh directory metadata with no
children (`fileOrDirNames` is `null`). -/
def createRawDirectoryMetadata (version : Nat) (path name : String) (now : Nat) :
    RawDirectoryMetadata :=
  { meta := { version := version, path := path, name := name, creationTime := now,
              modificationTime := now, accessTime := now },
    fileOrDirNames := none }

/-- Embedding of `createDirectoryInfo` (src/directory/handler.ts): writes the
new directory's own metadata at its topic. -/
def createDirectoryInfo (st : FdpState) (now : Nat) (path name : String) :
    FdpState × List String :=
  let fullPath := combine path name
  ({ st with feeds := feedsWrite st.feeds fullPath (FeedVal.dir (createRawDirectoryMetadata META_VERSION path name now)) },
   [fullPath])

/-- Embedding of `createDirectory` (src/directory/handler.ts).  The split of
the full path into parent path and directory name (`getPathParts` /
`getPathFromParts`, not in the provided sources) is modelled by taking the
two components as separate arguments. -/
def createDirectory (st : FdpState) (now : Nat) (parentPath name : String) : OpResult Unit :=
  match assertDirectoryName name with
  | Except.error e => ⟨Except.error e, st, []⟩
  | Except.ok _ =>
    let r := addEntryToDirectory st now parentPath name false
    match r.res with
    | Except.error e => ⟨Except.error e, r.state, r.writes⟩
    | Except.ok _ =>
      let si := createDirectoryInfo r.state now parentPath name
      ⟨Except.ok (), si.1, r.writes ++ si.2⟩

/-! ## File upload and download (src/unnamed/part_001, src/file/handler.ts) -/

/-- The block upload loop of `uploadData` (src/unnamed/part_001): for each
`i < Math.ceil(len/blockSize)`, slice the payload, upload the raw block
bytes (`uploadBytes(connection, currentBlock)`), and record
`{size, compressedSize, reference}`. -/
def uploadBlocksLoop (store : List Chunk) (p : Bytes) (b : Nat) : List Chunk × List FileBlock :=
  (List.range (totalBlocksCount p.length b)).foldl
    (fun acc i =>
      (acc.1 ++ [Chunk.raw (blockSlice p b i)],
       acc.2 ++ [{ name := none, size := (blockSlice p b i).length,
                   compressedSize := (blockSlice p b i).length, reference := acc.1.length }]))
    (store, [])

/-- Embedding of `uploadData` (src/unnamed/part_001): upload all blocks,
upload the manifest, build the file metadata, run the add-entry protocol on
the parent directory, then write the file metadata to the feed.  Pod
resolution and progress callbacks are omitted; `parentPath`/`fileName`
stand for `extractPathInfo(fullPath)`. -/
def uploadData (st : FdpState) (now : Nat) (parentPath fileName : String) (p : Bytes)
    (b : Nat) (contentType : String) : OpResult FileMetadata :=
  let sb := uploadBlocksLoop st.store p b
  let blocksReference := sb.1.length
  let store2 := sb.1 ++ [Chunk.manifest sb.2]
  let meta : FileMetadata :=
    { version := META_VERSION, filePath := parentPath, fileName := fileName,
      fileSize := p.length, blockSize := b, contentType := contentType,
      compression := "", creationTime := now, accessTime := now,
      modificationTime := now, blocksReference := blocksReference }
  let st1 : FdpState := { feeds := st.feeds, store := store2 }
  let r := addEntryToDirectory st1 now parentPath fileName true
  match r.res with
  | Except.error e => ⟨Except.error e, r.state, r.writes⟩
  | Except.ok _ =>
    ⟨Except.ok meta,
     { r.state with feeds := feedsWrite r.state.feeds (combine parentPath fileName) (FeedVal.file meta) },
     r.writes ++ [combine parentPath fileName]⟩

/-- A fetch performed against the network: a feed lookup or a chunk download. -/
inductive FetchEv where
  | feed (topic : String)
  | chunk (reference : Nat)
deriving Repr, DecidableEq

/-- The block download loop of `downloadData` (src/file/handler.ts): fetch
each block by reference in manifest order and write it into the result
buffer at the running offset (`result.set(data, offset)`), advancing the
offset by the fetched data's length. -/
def fetchBlocksLoop (store : List Chunk) : List FileBlock → Bytes → Nat →
    (Except String Bytes) × List FetchEv
  | [], buf, _ => (Except.ok buf, [])
  | blk :: rest, buf, offset =>
    match store[blk.reference]? with
    | some (Chunk.raw data) =>
      if offset + data.length ≤ buf.length then
        let r := fetchBlocksLoop store rest (buf.take offset ++ data ++ buf.drop (offset + data.length))
          (offset + data.length)
        (r.1, FetchEv.chunk blk.reference :: r.2)
      else (Except.error ("RangeError"), [FetchEv.chunk blk.reference])
    | _ => (Except.error ("Data not found"), [FetchEv.chunk blk.reference])

/-- Embedding of `downloadData` (src/file/handler.ts): fetch the file
metadata from the feed, reject non-empty `compression`, fetch the blocks
manifest, allocate a buffer of the summed block sizes, and fetch every
block in manifest order into it.  The second component records every
network fetch performed, in order. -/
def downloadData (st : FdpState) (fullPath : String) : (Except String Bytes) × List FetchEv :=
  match feedsLookup st.feeds fullPath with
  | none => (Except.error ("Data not found"), [FetchEv.feed fullPath])
  | some (_, FeedVal.dir _) => (Except.error ("Invalid raw file metadata"), [FetchEv.feed fullPath])
  | some (_, FeedVal.file meta) =>
    if meta.compression ≠ "" then
      (Except.error ("Compressed data is not supported yet"), [FetchEv.feed fullPath])
    else
      match st.store[meta.blocksReference]? with
      | some (Chunk.manifest blocks) =>
        let totalLength := (blocks.map FileBlock.size).sum
        let r := fetchBlocksLoop st.store blocks (List.replicate totalLength 0) 0
        (r.1, FetchEv.feed fullPath :: FetchEv.chunk meta.blocksReference :: r.2)
      | _ => (Except.error ("Data not found"), [FetchEv.feed fullPath, FetchEv.chunk meta.blocksReference])

/-! ## Basic lemmas about the feed map -/

theorem find?_filter_of_imp {α : Type} (l : List α) (p q : α → Bool)
    (h : ∀ x, q x = true → p x = true) :
    (l.filter p).find? q = l.find? q := by
  induction l with
  | nil => rfl
  | cons a t ih =>
    by_cases hq : q a = true
    · have hp := h a hq
      rw [List.filter_cons_of_pos hp, List.find?_cons_of_pos _ hq, List.find?_cons_of_pos _ hq]
    · by_cases hp : p a = true
      · rw [List.filter_cons_of_pos hp, List.find?_cons_of_neg _ hq, List.find?_cons_of_neg _ hq, ih]
      · rw [List.filter_cons_of_neg (by simpa using hp), List.find?_cons_of_neg _ hq, ih]

theorem feedsLookup_feedsWrite_self (feeds : List (String × Nat × FeedVal)) (topic : String)
    (v : FeedVal) :
    feedsLookup (feedsWrite feeds topic v) topic = some (nextVersion feeds topic, v) := by
  unfold feedsWrite
  unfold feedsLookup
  rw [List.find?_append]
  have h1 : (feeds.filter (fun e => e.1 != topic)).find? (fun e => e.1 == topic) = none := by
    rw [List.find?_eq_none]
    intro x hx
    rw [List.mem_filter] at hx
    have hne : x.1 ≠ topic := by simpa using hx.2
    simp [hne]
  rw [h1]
  simp [List.find?]

theorem feedsLookup_feedsWrite_other (feeds : List (String × Nat × FeedVal)) (topic : String)
    (v : FeedVal) (t : String) (h : t ≠ topic) :
    feedsLookup (feedsWrite feeds topic v) t = feedsLookup feeds t := by
  unfold feedsWrite
  unfold feedsLookup
  rw [List.find?_append]
  have h2 : List.find? (fun e => e.1 == t) [(topic, nextVersion feeds topic, v)] = none := by
    have hts : topic ≠ t := fun hEq => h hEq.symm
    have hbeq : (topic == t) = false := beq_eq_false_iff_ne.mpr hts
    simp [List.find?, hbeq]
  rw [h2]
  have h3 : (feeds.filter (fun e => e.1 != topic)).find? (fun e => e.1 == t)
      = feeds.find? (fun e => e.1 == t) := by
    apply find?_filter_of_imp
    intro x hx
    have hxt : x.1 = t := by simpa using hx
    have hxx : x.1 ≠ topic := by rw [hxt]; exact h
    simpa using hxx
  rw [h3]
  cases feeds.find? (fun e => e.1 == t) <;> rfl

/-! ## Characterization of the upload block loop -/

theorem foldl_range_append_spec {γ β : Type} (mk : Nat → γ) (g : Nat → Nat → β) :
    ∀ (k : Nat) (s0 : List γ) (bs0 : List β),
      (List.range k).foldl (fun acc i => (acc.1 ++ [mk i], acc.2 ++ [g i acc.1.length])) (s0, bs0)
      = (s0 ++ (List.range k).map mk, bs0 ++ (List.range k).map (fun i => g i (s0.length + i))) := by
  intro k
  induction k with
  | zero => intro s0 bs0; simp
  | succ k ih =>
    intro s0 bs0
    rw [List.range_succ, List.foldl_append, ih]
    have hlen : (s0 ++ (List.range k).map mk).length = s0.length + k := by simp
    simp only [List.foldl_cons, List.foldl_nil, List.map_append, List.map_cons, List.map_nil,
      List.append_assoc, hlen]

theorem uploadBlocksLoop_spec (store : List Chunk) (p : Bytes) (b : Nat) :
    uploadBlocksLoop store p b
      = (store ++ (chunkSlices p b).map Chunk.raw,
         (List.range (totalBlocksCount p.length b)).map (blockRec p b store.length)) := by
  unfold uploadBlocksLoop
  refine (foldl_range_append_spec (fun i => Chunk.raw (blockSlice p b i))
      (fun i r => ({ name := none, size := (blockSlice p b i).length,
                     compressedSize := (blockSlice p b i).length, reference := r } : FileBlock))
      (totalBlocksCount p.length b) store []).trans ?_
  unfold chunkSlices blockRec
  simp [List.map_map, Function.comp]

theorem uploadBlocksLoop_fst_length (store : List Chunk) (p : Bytes) (b : Nat) :
    (uploadBlocksLoop store p b).1.length = store.length + totalBlocksCount p.length b := by
  rw [uploadBlocksLoop_spec]
  simp [chunkSlices]

/-! ## Characterization of the download block loop -/

theorem fetchBlocksLoop_spec (store : List Chunk) :
    ∀ (blks : List FileBlock) (datas : List Bytes) (buf : Bytes) (offset : Nat),
      List.Forall₂ (fun (blk : FileBlock) (d : Bytes) =>
        store[blk.reference]? = some (Chunk.raw d)) blks datas →
      offset ≤ buf.length →
      buf.length = offset + (datas.map List.length).sum →
      fetchBlocksLoop store blks buf offset
        = (Except.ok (buf.take offset ++ datas.flatten),
           blks.map (fun blk => FetchEv.chunk blk.reference)) := by
  intro blks
  induction blks with
  | nil =>
    intro datas buf offset h hoff hlen
    cases h
    simp only [List.map_nil, List.sum_nil, Nat.add_zero] at hlen
    simp only [fetchBlocksLoop, List.flatten_nil, List.append_nil, List.map_nil]
    rw [← hlen, List.take_length]
  | cons blk rest ih =>
    intro datas buf offset h hoff hlen
    cases h with
    | cons hbd htail =>
      rename_i d ds
      simp only [List.map_cons, List.sum_cons] at hlen
      have hle : offset + d.length ≤ buf.length := by omega
      have htko : (buf.take offset).length = offset := by
        rw [List.length_take]
        omega
      have htk : (buf.take offset ++ d).length = offset + d.length := by
        rw [List.length_append, htko]
      have hblen : ((buf.take offset ++ d) ++ buf.drop (offset + d.length)).length = buf.length := by
        rw [List.length_append, htk, List.length_drop]
        omega
      have hoff2 : offset + d.length ≤ ((buf.take offset ++ d) ++ buf.drop (offset + d.length)).length := by
        rw [hblen]
        exact hle
      have hlen2 : ((buf.take offset ++ d) ++ buf.drop (offset + d.length)).length
          = (offset + d.length) + (ds.map List.length).sum := by
        rw [hblen]
        omega
      have hrec := ih ds ((buf.take offset ++ d) ++ buf.drop (offset + d.length))
        (offset + d.length) htail hoff2 hlen2
      have hstep : ((buf.take offset ++ d) ++ buf.drop (offset + d.length)).take (offset + d.length)
          = buf.take offset ++ d := by
        rw [← htk, List.take_left]
      simp only [fetchBlocksLoop, hbd, if_pos hle]
      rw [hrec, hstep]
      simp [List.flatten_cons, List.append_assoc]

/-! ## Where upload puts things in the store -/

theorem upload_store_block (store : List Chunk) (p : Bytes) (b i : Nat)
    (hi : i < totalBlocksCount p.length b) :
    ((uploadBlocksLoop store p b).1 ++ [Chunk.manifest (uploadBlocksLoop store p b).2])[store.length + i]?
      = some (Chunk.raw (blockSlice p b i)) := by
  rw [uploadBlocksLoop_spec]
  have hmap : ((chunkSlices p b).map Chunk.raw).length = totalBlocksCount p.length b := by
    simp [chunkSlices]
  rw [List.append_assoc, List.getElem?_append_right (by omega)]
  have hidx : store.length + i - store.length = i := by omega
  rw [hidx]
  rw [List.getElem?_append_left (by omega)]
  unfold chunkSlices
  rw [List.map_map, List.getElem?_map, List.getElem?_range hi]
  rfl

theorem upload_store_manifest (store : List Chunk) (p : Bytes) (b : Nat) :
    ((uploadBlocksLoop store p b).1 ++ [Chunk.manifest (uploadBlocksLoop store p b).2])[(uploadBlocksLoop store p b).1.length]?
      = some (Chunk.manifest (uploadBlocksLoop store p b).2) := by
  rw [List.getElem?_append_right (le_refl _), Nat.sub_self]
  rfl

/-! ## Success characterization of the add-entry protocol -/

/-- The parent metadata after a successful add-entry. -/
def parentAfterAdd (d : RawDirectoryMetadata) (now : Nat) (tok : String) : RawDirectoryMetadata :=
  { meta := { d.meta with modificationTime := now },
    fileOrDirNames := some (d.fileOrDirNames.getD [] ++ [tok]) }

/-- The state after a successful add-entry on `parentPath`. -/
def stateAfterAdd (st : FdpState) (now : Nat) (parentPath tok : String)
    (d : RawDirectoryMetadata) : FdpState :=
  { st with feeds := feedsWrite st.feeds parentPath (FeedVal.dir (parentAfterAdd d now tok)) }

theorem addEntryToDirectory_ok (st : FdpState) (now : Nat) (parentPath entryPath : String)
    (isFile : Bool) (ver : Nat) (d : RawDirectoryMetadata)
    (hpp : parentPath ≠ "") (hep : entryPath ≠ "")
    (hfull : feedsLookup st.feeds (combine parentPath entryPath) = none)
    (hpar : feedsLookup st.feeds parentPath = some (ver, FeedVal.dir d))
    (hmem : ((if isFile then FILE_TOKEN else DIRECTORY_TOKEN) ++ entryPath) ∉ d.fileOrDirNames.getD []) :
    addEntryToDirectory st now parentPath entryPath isFile =
      ⟨Except.ok (),
       stateAfterAdd st now parentPath ((if isFile then FILE_TOKEN else DIRECTORY_TOKEN) ++ entryPath) d,
       [parentPath]⟩ := by
  unfold addEntryToDirectory stateAfterAdd parentAfterAdd
  rw [if_neg hpp, if_neg hep]
  simp only [hfull, hpar, Option.isSome_none, Bool.false_eq_true, if_false, if_neg hmem]

/-! ## Success characterization of upload -/

/-- Chunk store contents after the block and manifest uploads. -/
def uploadStore2 (st : FdpState) (p : Bytes) (b : Nat) : List Chunk :=
  (uploadBlocksLoop st.store p b).1 ++ [Chunk.manifest (uploadBlocksLoop st.store p b).2]

/-- The file metadata produced by a successful upload. -/
def uploadMeta (st : FdpState) (now : Nat) (parentPath fileName contentType : String)
    (p : Bytes) (b : Nat) : FileMetadata :=
  { version := META_VERSION, filePath := parentPath, fileName := fileName,
    fileSize := p.length, blockSize := b, contentType := contentType, compression := "",
    creationTime := now, accessTime := now, modificationTime := now,
    blocksReference := (uploadBlocksLoop st.store p b).1.length }

/-- The final state of a successful upload. -/
def uploadStateF (st : FdpState) (now : Nat) (parentPath fileName contentType : String)
    (p : Bytes) (b : Nat) (d : RawDirectoryMetadata) : FdpState :=
  let st1 : FdpState := { feeds := st.feeds, store := uploadStore2 st p b }
  let st2 := stateAfterAdd st1 now parentPath (FILE_TOKEN ++ fileName) d
  let fv := FeedVal.file (uploadMeta st now parentPath fileName contentType p b)
  { st2 with feeds := feedsWrite st2.feeds (combine parentPath fileName) fv }

theorem uploadData_ok (st : FdpState) (now : Nat) (parentPath fileName contentType : String)
    (p : Bytes) (b : Nat) (ver : Nat) (d : RawDirectoryMetadata)
    (hpp : parentPath ≠ "") (hfn : fileName ≠ "")
    (hfull : feedsLookup st.feeds (combine parentPath fileName) = none)
    (hpar : feedsLookup st.feeds parentPath = some (ver, FeedVal.dir d))
    (hmem : (FILE_TOKEN ++ fileName) ∉ d.fileOrDirNames.getD []) :
    uploadData st now parentPath fileName p b contentType =
      ⟨Except.ok (uploadMeta st now parentPath fileName contentType p b),
       uploadStateF st now parentPath fileName contentType p b d,
       [parentPath, combine parentPath fileName]⟩ := by
  have hmem' : ((if true then FILE_TOKEN else DIRECTORY_TOKEN) ++ fileName) ∉ d.fileOrDirNames.getD [] := by
    simpa using hmem
  have hadd := addEntryToDirectory_ok { feeds := st.feeds, store := uploadStore2 st p b }
    now parentPath fileName true ver d hpp hfn hfull hpar hmem'
  unfold uploadStore2 at hadd
  simp only [uploadData]
  rw [hadd]
  simp only [uploadStateF, uploadMeta, uploadStore2, stateAfterAdd, parentAfterAdd]
  simp

/-! ## Download after upload returns the payload -/

theorem downloadData_after_upload (st : FdpState) (now : Nat)
    (parentPath fileName contentType : String) (p : Bytes) (b : Nat)
    (d : RawDirectoryMetadata) (hb : 0 < b) :
    (downloadData (uploadStateF st now parentPath fileName contentType p b d)
        (combine parentPath fileName)).1 = Except.ok p := by
  have hfeeds : (uploadStateF st now parentPath fileName contentType p b d).feeds
      = feedsWrite (stateAfterAdd { feeds := st.feeds, store := uploadStore2 st p b }
          now parentPath (FILE_TOKEN ++ fileName) d).feeds (combine parentPath fileName)
          (FeedVal.file (uploadMeta st now parentPath fileName contentType p b)) := rfl
  have hstore : (uploadStateF st now parentPath fileName contentType p b d).store
      = uploadStore2 st p b := rfl
  have hcomp : (uploadMeta st now parentPath fileName contentType p b).compression = "" := rfl
  have hbr : (uploadMeta st now parentPath fileName contentType p b).blocksReference
      = (uploadBlocksLoop st.store p b).1.length := rfl
  have hsnd : (uploadBlocksLoop st.store p b).2
      = (List.range (totalBlocksCount p.length b)).map (blockRec p b st.store.length) := by
    rw [uploadBlocksLoop_spec]
  have hsizes : (((List.range (totalBlocksCount p.length b)).map
      (blockRec p b st.store.length)).map FileBlock.size)
      = (chunkSlices p b).map List.length := by
    unfold chunkSlices blockRec
    rw [List.map_map, List.map_map]
    rfl
  have hfa : List.Forall₂ (fun (blk : FileBlock) (d2 : Bytes) =>
      (uploadStore2 st p b)[blk.reference]? = some (Chunk.raw d2))
      ((List.range (totalBlocksCount p.length b)).map (blockRec p b st.store.length))
      (chunkSlices p b) := by
    unfold chunkSlices
    rw [List.forall₂_map_left_iff, List.forall₂_map_right_iff, List.forall₂_same]
    intro i hi
    have hik : i < totalBlocksCount p.length b := List.mem_range.mp hi
    exact upload_store_block st.store p b i hik
  have hfetch := fetchBlocksLoop_spec (uploadStore2 st p b)
      ((List.range (totalBlocksCount p.length b)).map (blockRec p b st.store.length))
      (chunkSlices p b)
      (List.replicate ((((List.range (totalBlocksCount p.length b)).map
        (blockRec p b st.store.length)).map FileBlock.size).sum) 0)
      0 hfa (Nat.zero_le _)
      (by rw [List.length_replicate, hsizes]; omega)
  simp only [downloadData, hfeeds, feedsLookup_feedsWrite_self, hcomp, hbr, hstore]
  rw [show (uploadStore2 st p b)[(uploadBlocksLoop st.store p b).1.length]?
      = some (Chunk.manifest (uploadBlocksLoop st.store p b).2) from upload_store_manifest st.store p b]
  simp only [hsnd]
  rw [hfetch]
  simp only [List.take_zero, List.nil_append]
  rw [chunkSlices_flatten b hb p.length p (le_refl _)]
  simp

theorem forall₂_map_eq {α β γ : Type} (f : α → γ) (g : β → γ) :
    ∀ {l1 : List α} {l2 : List β},
      List.Forall₂ (fun a c => f a = g c) l1 l2 → l1.map f = l2.map g := by
  intro l1
  induction l1 with
  | nil =>
    intro l2 h
    cases h
    rfl
  | cons a t ih =>
    intro l2 h
    cases h with
    | cons hac htail =>
      rw [List.map_cons, List.map_cons, hac, ih htail]

/-! ## Claim theorems: file content (C1, C8, C7) -/

/-- **C1**: for every byte payload `p` and every positive block size `b`,
uploading a file with content `p` and block size `b` (which splits `p` into
`ceil(len(p)/b)` consecutive slices recorded in the manifest in index order)
and then downloading it (which concatenates the blocks in manifest order)
returns bytes identical to `p`.  The hypotheses are the success
preconditions of the add-entry step: the parent directory exists indeed and
nothing is stored at the full path yet. -/
theorem claim_C1_upload_download_roundtrip
    (st : FdpState) (now : Nat) (parentPath fileName contentType : String) (p : Bytes)
    (b : Nat) (ver : Nat) (d : RawDirectoryMetadata)
    (hb : 0 < b) (hpp : parentPath ≠ "") (hfn : fileName ≠ "")
    (hfull : feedsLookup st.feeds (combine parentPath fileName) = none)
    (hpar : feedsLookup st.feeds parentPath = some (ver, FeedVal.dir d))
    (hmem : (FILE_TOKEN ++ fileName) ∉ d.fileOrDirNames.getD []) :
    (uploadData st now parentPath fileName p b contentType).res
        = Except.ok (uploadMeta st now parentPath fileName contentType p b) ∧
    (downloadData (uploadData st now parentPath fileName p b contentType).state
        (combine parentPath fileName)).1 = Except.ok p := by
  rw [uploadData_ok st now parentPath fileName contentType p b ver d hpp hfn hfull hpar hmem]
  exact ⟨rfl, downloadData_after_upload st now parentPath fileName contentType p b d hb⟩

/-- Root directory metadata fixture for witnesses. -/
def dRoot : RawDirectoryMetadata :=
  { meta := { version := 1, path := "", name := "/", creationTime := 0,
              modificationTime := 0, accessTime := 0 },
    fileOrDirNames := none }

/-- A state holding a pod root directory and an empty chunk store. -/
def stRoot : FdpState := { feeds := [("/", 1, FeedVal.dir dRoot)], store := [] }

/-- A 15-byte payload (`5*b+5` for block size `b = 2`). -/
def pC1 : Bytes := [1, 2, 3, 4, 5, 6, 7, 8, 9, 10, 11, 12, 13, 14, 15]

theorem claim_C1_witness :
    (uploadData stRoot 5 "/" "f.txt" pC1 2 "").res
        = Except.ok (uploadMeta stRoot 5 "/" "f.txt" "" pC1 2) ∧
    (downloadData (uploadData stRoot 5 "/" "f.txt" pC1 2 "").state
        (combine "/" "f.txt")).1 = Except.ok pC1 :=
  claim_C1_upload_download_roundtrip stRoot 5 "/" "f.txt" "" pC1 2 1 dRoot
    (by decide) (by decide) (by decide) (by rfl) (by rfl) (by decide)

/-- **C8**: for every uploaded file, the block manifest produced by upload
sits in the store at the metadata's blocks reference, the recorded sizes sum
to the recorded `fileSize`, block `i` of the manifest records the slice
`p[i*b, (i+1)*b)` (stored raw at its reference), and concatenating the
slices in list order reconstructs the file. -/
theorem claim_C8_manifest_invariant
    (st : FdpState) (now : Nat) (parentPath fileName contentType : String) (p : Bytes)
    (b : Nat) (ver : Nat) (d : RawDirectoryMetadata)
    (hb : 0 < b) (hpp : parentPath ≠ "") (hfn : fileName ≠ "")
    (hfull : feedsLookup st.feeds (combine parentPath fileName) = none)
    (hpar : feedsLookup st.feeds parentPath = some (ver, FeedVal.dir d))
    (hmem : (FILE_TOKEN ++ fileName) ∉ d.fileOrDirNames.getD []) :
    (uploadData st now parentPath fileName p b contentType).state.store[(uploadMeta st now parentPath fileName contentType p b).blocksReference]?
        = some (Chunk.manifest (uploadBlocksLoop st.store p b).2) ∧
    (((uploadBlocksLoop st.store p b).2).map FileBlock.size).sum
        = (uploadMeta st now parentPath fileName contentType p b).fileSize ∧
    (∀ i, i < totalBlocksCount p.length b →
      ((uploadBlocksLoop st.store p b).2)[i]? = some (blockRec p b st.store.length i) ∧
      (uploadData st now parentPath fileName p b contentType).state.store[st.store.length + i]?
          = some (Chunk.raw (blockSlice p b i))) ∧
    (chunkSlices p b).flatten = p := by
  rw [uploadData_ok st now parentPath fileName contentType p b ver d hpp hfn hfull hpar hmem]
  have hstore : (uploadStateF st now parentPath fileName contentType p b d).store
      = uploadStore2 st p b := rfl
  have hbr : (uploadMeta st now parentPath fileName contentType p b).blocksReference
      = (uploadBlocksLoop st.store p b).1.length := rfl
  have hsnd : (uploadBlocksLoop st.store p b).2
      = (List.range (totalBlocksCount p.length b)).map (blockRec p b st.store.length) := by
    rw [uploadBlocksLoop_spec]
  refine ⟨?_, ?_, ?_, ?_⟩
  · dsimp only
    rw [hbr]
    exact upload_store_manifest st.store p b
  · have hco : (((List.range (totalBlocksCount p.length b)).map
        (blockRec p b st.store.length)).map FileBlock.size)
        = (chunkSlices p b).map List.length := by
      unfold chunkSlices blockRec
      rw [List.map_map, List.map_map]
      rfl
    rw [hsnd, hco, chunkSlices_length_sum p b hb]
    rfl
  · intro i hi
    constructor
    · rw [hsnd, List.getElem?_map, List.getElem?_range hi]
      rfl
    · dsimp only
      exact upload_store_block st.store p b i hi
  · exact chunkSlices_flatten b hb p.length p (le_refl _)

theorem claim_C8_witness :
    (uploadData stRoot 5 "/" "g.txt" pC1 4 "").state.store[(uploadMeta stRoot 5 "/" "g.txt" "" pC1 4).blocksReference]?
        = some (Chunk.manifest (uploadBlocksLoop stRoot.store pC1 4).2) ∧
    (((uploadBlocksLoop stRoot.store pC1 4).2).map FileBlock.size).sum
        = (uploadMeta stRoot 5 "/" "g.txt" "" pC1 4).fileSize ∧
    (∀ i, i < totalBlocksCount pC1.length 4 →
      ((uploadBlocksLoop stRoot.store pC1 4).2)[i]? = some (blockRec pC1 4 stRoot.store.length i) ∧
      (uploadData stRoot 5 "/" "g.txt" pC1 4 "").state.store[stRoot.store.length + i]?
          = some (Chunk.raw (blockSlice pC1 4 i))) ∧
    (chunkSlices pC1 4).flatten = pC1 :=
  claim_C8_manifest_invariant stRoot 5 "/" "g.txt" "" pC1 4 1 dRoot
    (by decide) (by decide) (by decide) (by rfl) (by rfl) (by decide)

/-- **C7**: for every file whose stored metadata has a non-empty compression
field, download fails with the unsupported-compression error before fetching
the block manifest or any block (the fetch trace holds only the metadata
lookup); for every file with empty compression, download fetches the
manifest and then every block in manifest order, and concatenates them into
a buffer whose length is the sum of the blocks' recorded sizes. -/
theorem claim_C7_download_behaviour
    (st : FdpState) (fullPath : String) (ver : Nat) (meta : FileMetadata)
    (hmeta : feedsLookup st.feeds fullPath = some (ver, FeedVal.file meta)) :
    (meta.compression ≠ "" →
      downloadData st fullPath
        = (Except.error ("Compressed data is not supported yet"), [FetchEv.feed fullPath])) ∧
    (meta.compression = "" →
      ∀ (blocks : List FileBlock) (datas : List Bytes),
        st.store[meta.blocksReference]? = some (Chunk.manifest blocks) →
        List.Forall₂ (fun (blk : FileBlock) (d2 : Bytes) =>
          st.store[blk.reference]? = some (Chunk.raw d2) ∧ blk.size = d2.length) blocks datas →
        downloadData st fullPath
          = (Except.ok datas.flatten,
             FetchEv.feed fullPath :: FetchEv.chunk meta.blocksReference ::
               blocks.map (fun blk => FetchEv.chunk blk.reference)) ∧
        datas.flatten.length = (blocks.map FileBlock.size).sum) := by
  constructor
  · intro hc
    simp only [downloadData, hmeta, if_pos hc]
  · intro hc blocks datas hman hfa
    have hsz : blocks.map FileBlock.size = datas.map List.length :=
      forall₂_map_eq FileBlock.size List.length (hfa.imp (fun a c hab => hab.2))
    have hlook : List.Forall₂ (fun (blk : FileBlock) (d2 : Bytes) =>
        st.store[blk.reference]? = some (Chunk.raw d2)) blocks datas :=
      hfa.imp (fun a c hab => hab.1)
    have hfetch := fetchBlocksLoop_spec st.store blocks datas
      (List.replicate ((blocks.map FileBlock.size).sum) 0) 0 hlook (Nat.zero_le _)
      (by rw [List.length_replicate, hsz]; omega)
    constructor
    · simp only [downloadData, hmeta, hc]
      rw [if_neg (by simp)]
      simp only [hman]
      rw [hfetch]
      simp
    · rw [List.length_flatten, hsz]

/-- File metadata fixture with non-empty compression. -/
def metaC7a : FileMetadata :=
  { version := 1, filePath := "/", fileName := "x", fileSize := 2, blockSize := 1,
    contentType := "", compression := "gzip", creationTime := 0, accessTime := 0,
    modificationTime := 0, blocksReference := 0 }

/-- State holding a compressed file's metadata. -/
def stC7a : FdpState := { feeds := [("/x", 1, FeedVal.file metaC7a)], store := [] }

/-- File metadata fixture with empty compression. -/
def metaC7b : FileMetadata :=
  { version := 1, filePath := "/", fileName := "y", fileSize := 2, blockSize := 1000000,
    contentType := "", compression := "", creationTime := 0, accessTime := 0,
    modificationTime := 0, blocksReference := 0 }

/-- State holding an uncompressed file with one stored block. -/
def stC7b : FdpState :=
  { feeds := [("/y", 1, FeedVal.file metaC7b)],
    store := [Chunk.manifest [{ name := none, size := 2, compressedSize := 2, reference := 1 }],
              Chunk.raw [7, 8]] }

theorem claim_C7_witness :
    downloadData stC7a "/x"
        = (Except.error ("Compressed data is not supported yet"), [FetchEv.feed "/x"]) ∧
    downloadData stC7b "/y"
        = (Except.ok [7, 8], [FetchEv.feed "/y", FetchEv.chunk 0, FetchEv.chunk 1]) := by
  constructor
  · exact (claim_C7_download_behaviour stC7a "/x" 1 metaC7a rfl).1 (by decide)
  · have h := (claim_C7_download_behaviour stC7b "/y" 1 metaC7b rfl).2 rfl
      [{ name := none, size := 2, compressedSize := 2, reference := 1 }] [[7, 8]] rfl
      (List.Forall₂.cons ⟨rfl, rfl⟩ List.Forall₂.nil)
    simpa using h.1

/-! ## Claim theorems: add-entry error behaviour (C5, C4) -/

/-- **C5**: adding an entry under a parent fails with the
already-uploaded-to-the-network error whenever an item already exists at the
full path, detected by the direct existence probe before the parent listing
is consulted or modified (the first conjunct holds with no assumption on the
parent topic at all, and nothing is written); additionally, if the
token-prefixed name is already present in the parent's `fileOrDirNames`, the
operation fails before any write. -/
theorem claim_C5_already_exists
    (st : FdpState) (now : Nat) (parentPath entryPath : String) (isFile : Bool)
    (hpp : parentPath ≠ "") (hep : entryPath ≠ "") :
    ((feedsLookup st.feeds (combine parentPath entryPath)).isSome = true →
      addEntryToDirectory st now parentPath entryPath isFile
        = ⟨Except.error ((if isFile then "File" else "Directory") ++ " \"" ++ combine parentPath entryPath ++ "\" already uploaded to the network"), st, []⟩) ∧
    (∀ (ver : Nat) (d : RawDirectoryMetadata),
      feedsLookup st.feeds (combine parentPath entryPath) = none →
      feedsLookup st.feeds parentPath = some (ver, FeedVal.dir d) →
      ((if isFile then FILE_TOKEN else DIRECTORY_TOKEN) ++ entryPath) ∈ d.fileOrDirNames.getD [] →
      addEntryToDirectory st now parentPath entryPath isFile
        = ⟨Except.error ((if isFile then "File" else "Directory") ++ " already listed in the parent directory list"), st, []⟩) := by
  constructor
  · intro hsome
    simp only [addEntryToDirectory, if_neg hpp, if_neg hep, hsome, if_true]
  · intro ver d hfull hpar hmem
    simp only [addEntryToDirectory, if_neg hpp, if_neg hep, hfull, hpar, Option.isSome_none,
      Bool.false_eq_true, if_false, if_pos hmem]

/-- A directory metadata fixture whose listing holds the entry `_D_b`. -/
def dListB : RawDirectoryMetadata :=
  { meta := { version := 1, path := "", name := "/", creationTime := 0,
              modificationTime := 0, accessTime := 0 },
    fileOrDirNames := some ["_D_b"] }

/-- A state where `/dup` exists on the network. -/
def stDup : FdpState :=
  { feeds := [("/", 1, FeedVal.dir dRoot), ("/dup", 1, FeedVal.dir (createRawDirectoryMetadata 1 "/" "dup" 0))],
    store := [] }

/-- A state whose root listing holds `_D_b` but where `/b` itself has no
metadata yet. -/
def stListB : FdpState := { feeds := [("/", 1, FeedVal.dir dListB)], store := [] }

theorem claim_C5_witness :
    addEntryToDirectory stDup 3 "/" "dup" false
        = ⟨Except.error ("Directory \"/dup\" already uploaded to the network"), stDup, []⟩ ∧
    addEntryToDirectory stListB 3 "/" "b" false
        = ⟨Except.error ("Directory already listed in the parent directory list"), stListB, []⟩ := by
  constructor
  · exact (claim_C5_already_exists stDup 3 "/" "dup" false (by decide) (by decide)).1 (by rfl)
  · exact (claim_C5_already_exists stListB 3 "/" "b" false (by decide) (by decide)).2 1 dListB
      (by rfl) (by rfl) (by decide)

/-- A state holding orphaned metadata at `/orphan/child` while `/orphan`
itself has none (reachable because the store is shared with other writers
and the parent-listing/child-metadata write pair is not atomic). -/
def stOrphan : FdpState :=
  { feeds := [("/orphan/child", 1, FeedVal.dir (createRawDirectoryMetadata 1 "/orphan" "child" 0))],
    store := [] }

/-- **C4 counterexample**: with metadata present at the full path but none at
the parent, directory creation fails with the already-uploaded error, not
with `Parent directory does not exist` as the claim states for every path
whose parent has no stored metadata. -/
theorem claim_C4_counterexample :
    (createDirectory stOrphan 0 "/orphan" "child").res
        = Except.error ("Directory \"/orphan/child\" already uploaded to the network") ∧
    ("Directory \"/orphan/child\" already uploaded to the network" : String)
        ≠ "Parent directory does not exist" := by
  constructor
  · rfl
  · decide

/-- **C4 (amended)**: for every path whose parent directory has no stored
metadata — provided the name passes validation and no item already exists at
the full path itself — the add-entry step and directory creation fail with
`Parent directory does not exist`, and neither the parent listing nor the
new child's own metadata is written (state unchanged, empty write trace). -/
theorem claim_C4_parent_not_found
    (st : FdpState) (now : Nat) (parentPath name : String)
    (hpp : parentPath ≠ "") (hn : name ≠ "")
    (hval : assertDirectoryName name = Except.ok ())
    (hpar : feedsLookup st.feeds parentPath = none)
    (hfull : feedsLookup st.feeds (combine parentPath name) = none) :
    addEntryToDirectory st now parentPath name false
        = ⟨Except.error ("Parent directory does not exist"), st, []⟩ ∧
    createDirectory st now parentPath name
        = ⟨Except.error ("Parent directory does not exist"), st, []⟩ := by
  have hadd : addEntryToDirectory st now parentPath name false
      = ⟨Except.error ("Parent directory does not exist"), st, []⟩ := by
    simp only [addEntryToDirectory, if_neg hpp, if_neg hn, hfull, hpar, Option.isSome_none,
      Bool.false_eq_true, if_false]
  refine ⟨hadd, ?_⟩
  simp only [createDirectory, hval, hadd]

/-- The empty account state. -/
def stEmpty : FdpState := { feeds := [], store := [] }

theorem claim_C4_witness :
    addEntryToDirectory stEmpty 0 "/docs" "sub" false
        = ⟨Except.error ("Parent directory does not exist"), stEmpty, []⟩ ∧
    createDirectory stEmpty 0 "/docs" "sub"
        = ⟨Except.error ("Parent directory does not exist"), stEmpty, []⟩ :=
  claim_C4_parent_not_found stEmpty 0 "/docs" "sub" (by decide) (by decide) (by rfl)
    (by rfl) (by rfl)

/-- A state whose root listing holds only `_D_a`. -/
def stListA : FdpState :=
  { feeds := [("/", 1, FeedVal.dir { meta := dListB.meta, fileOrDirNames := some ["_D_a"] })],
    store := [] }

/-- **C3 counterexample**: deleting the directory `b`, which is not present
under `/`, does not fail `NotFound`: `removeEntryFromDirectory` reports
success and performs a feed write of the parent listing. -/
theorem claim_C3_counterexample :
    (removeEntryFromDirectory stListA "/" "b" false).res = Except.ok () ∧
    (removeEntryFromDirectory stListA "/" "b" false).writes = ["/"] := by
  exact ⟨rfl, rfl⟩

/-! ## Pod list (PersonalStorage, src/unnamed/part_004) -/

/-- Modelled from the spec: the whitespace class of JavaScript
`String.prototype.trim` (ASCII part; exotic Unicode space separators are
not modelled). -/
def isJsSpace (c : Char) : Bool :=
  c == ' ' || c == '\t' || c == '\n' || c == '\r' || c == '\x0b' || c == '\x0c'

/-- `trim` on the underlying character list: drop leading and trailing
whitespace. -/
def trimChars (l : List Char) : List Char :=
  (l.dropWhile isJsSpace).rdropWhile isJsSpace

/-- Modelled from the spec: JavaScript `name.trim()`. -/
def jsTrim (s : String) : String := String.mk (trimChars s.data)

theorem dropWhile_eq_self_append {α : Type} (p : α → Bool) (a c : List α)
    (h : (a ++ c).dropWhile p = a ++ c) : a.dropWhile p = a := by
  cases a with
  | nil => rfl
  | cons x t =>
    rw [List.dropWhile_eq_self_iff] at h ⊢
    intro h0
    have hx := h (by simp)
    simpa using hx

theorem trimChars_idempotent (l : List Char) : trimChars (trimChars l) = trimChars l := by
  unfold trimChars
  have h1 : (l.dropWhile isJsSpace).dropWhile isJsSpace = l.dropWhile isJsSpace :=
    List.dropWhile_idempotent _ _
  obtain ⟨t, ht⟩ := List.rdropWhile_prefix isJsSpace (l.dropWhile isJsSpace)
  have h2 : ((l.dropWhile isJsSpace).rdropWhile isJsSpace).dropWhile isJsSpace
      = (l.dropWhile isJsSpace).rdropWhile isJsSpace := by
    apply dropWhile_eq_self_append isJsSpace _ t
    rw [ht]
    exact h1
  rw [h2, List.rdropWhile_idempotent]

theorem jsTrim_idempotent (s : String) : jsTrim (jsTrim s) = jsTrim s := by
  unfold jsTrim
  exact congrArg String.mk (trimChars_idempotent s.data)

/-- A pod entry `{name, index}` (pod list wire format, spec §6). -/
structure Pod where
  name : String
  index : Nat
deriving Repr, DecidableEq

/-- Modelled from the spec: the implementation-defined pod count cap
(`assertPodsLength`). -/
def MAX_PODS_COUNT : Nat := 65536

/-- Modelled from the spec: the maximum pod name length. -/
def MAX_POD_NAME_LENGTH : Nat := 64

/-- Modelled from the spec and tests: pod-name validation (`assertPodName`
of `src/pod/utils.ts`, not included in the provided sources): non-empty, at
most the maximum length, no comma. -/
def assertPodName (name : String) : Except String Unit :=
  if name.length = 0 then Except.error ("Pod name is too short")
  else if name.length > MAX_POD_NAME_LENGTH then Except.error ("Pod name is too long")
  else if name.data.contains ',' then Except.error ("Pod name cannot contain commas")
  else Except.ok ()

/-- The pods feed of one account: `none` when nothing was ever written. -/
abbrev PodsFeed := Option (List Pod)

/-- Result of a pod operation: outcome, resulting pods feed, and the writes
performed (`"Pods"` for the pod list, `"rootDir"` for the new pod's root
directory record, written under the pod's own derived identity). -/
structure PodOpResult (α : Type) where
  res : Except String α
  feed : PodsFeed
  writes : List String
deriving Repr

/-- `getPodsList`: empty collections when the feed has no data (an empty
list is not an error). -/
def getPodsListPods (feed : PodsFeed) : List Pod := feed.getD []

/-- The pod produced by a successful `create` on the given feed. -/
def createdPod (feed : PodsFeed) (name : String) : Pod :=
  { name := name, index := (getPodsListPods feed).length + 1 }

/-- Embedding of `PersonalStorage.create` (src/unnamed/part_004): trim the
name, validate it, read the pod list, check the cap (`assertPodsLength`) and
name availability, append `{name, index := len+1}`, write the updated list
at the next epoch, then create the new pod's root directory. -/
def personalStorageCreate (feed : PodsFeed) (name : String) : PodOpResult Pod :=
  let name := jsTrim name
  match assertPodName name with
  | Except.error e => ⟨Except.error e, feed, []⟩
  | Except.ok _ =>
    let pods := getPodsListPods feed
    let nextIndex := pods.length + 1
    if nextIndex > MAX_PODS_COUNT then
      ⟨Except.error ("Pods count limit exceeded"), feed, []⟩
    else if pods.any (fun pod => pod.name == name) then
      ⟨Except.error ("Pod with name \"" ++ name ++ "\" already exists"), feed, []⟩
    else
      ⟨Except.ok (createdPod feed name), some (pods ++ [createdPod feed name]),
       ["Pods", "rootDir"]⟩

/-- Embedding of `PersonalStorage.delete` (src/unnamed/part_004): trim the
name, read the list, check the cap, find the pod (fails, with no feed write,
when absent), filter it out and rewrite the whole list at the next epoch. -/
def personalStorageDelete (feed : PodsFeed) (name : String) : PodOpResult Unit :=
  let name := jsTrim name
  let pods := getPodsListPods feed
  if pods.length > MAX_PODS_COUNT then
    ⟨Except.error ("Pods count limit exceeded"), feed, []⟩
  else
    match pods.find? (fun pod => pod.name == name) with
    | none => ⟨Except.error ("Pod \"" ++ name ++ "\" does not exist"), feed, []⟩
    | some _ =>
      ⟨Except.ok (), some (pods.filter (fun pod => pod.name != name)), ["Pods"]⟩

/-- **C3 (amended)**: deleting a non-existent pod fails (`Pod "n" does not
exist`) with no feed write and an unchanged pods feed; directory/file delete
fails `NotFound` only when the parent directory's metadata is absent; when
the parent exists but the entry is not listed, `removeEntryFromDirectory`
reports success and performs a feed write of the parent listing whose
content is unchanged (a subsequent read returns the same metadata, at the
next version). -/
theorem claim_C3_delete_missing
    (feed : PodsFeed) (name : String) (st : FdpState) (parentPath entryPath : String)
    (isFile : Bool)
    (hnp : (getPodsListPods feed).find? (fun pod => pod.name == jsTrim name) = none)
    (hcap : (getPodsListPods feed).length ≤ MAX_PODS_COUNT) :
    personalStorageDelete feed name
        = ⟨Except.error ("Pod \"" ++ jsTrim name ++ "\" does not exist"), feed, []⟩ ∧
    (feedsLookup st.feeds parentPath = none →
      removeEntryFromDirectory st parentPath entryPath isFile
        = ⟨Except.error ("Data not found"), st, []⟩) ∧
    (∀ (ver : Nat) (d : RawDirectoryMetadata),
      feedsLookup st.feeds parentPath = some (ver, FeedVal.dir d) →
      ((if isFile then FILE_TOKEN else DIRECTORY_TOKEN) ++ entryPath) ∉ d.fileOrDirNames.getD [] →
      (removeEntryFromDirectory st parentPath entryPath isFile).res = Except.ok () ∧
      (removeEntryFromDirectory st parentPath entryPath isFile).writes = [parentPath] ∧
      feedsLookup (removeEntryFromDirectory st parentPath entryPath isFile).state.feeds parentPath
        = some (nextVersion st.feeds parentPath, FeedVal.dir d)) := by
  refine ⟨?_, ?_, ?_⟩
  · simp only [personalStorageDelete]
    rw [if_neg (by omega), hnp]
  · intro hpar
    unfold removeEntryFromDirectory
    rw [hpar]
  · intro ver d hpar hmem
    have hfilter : d.fileOrDirNames.map
        (fun l => l.filter (fun nm => nm != ((if isFile then FILE_TOKEN else DIRECTORY_TOKEN) ++ entryPath)))
        = d.fileOrDirNames := by
      cases hfd : d.fileOrDirNames with
      | none => rfl
      | some l =>
        have hfl : l.filter
            (fun nm => nm != ((if isFile then FILE_TOKEN else DIRECTORY_TOKEN) ++ entryPath)) = l := by
          apply List.filter_eq_self.mpr
          intro a ha
          have hne : a ≠ (if isFile then FILE_TOKEN else DIRECTORY_TOKEN) ++ entryPath := by
            intro hEq
            apply hmem
            rw [hfd]
            simp only [Option.getD_some]
            rw [← hEq]
            exact ha
          simpa using hne
        simp [hfl]
    unfold removeEntryFromDirectory
    rw [hpar]
    dsimp only
    rw [hfilter]
    exact ⟨rfl, rfl, feedsLookup_feedsWrite_self st.feeds parentPath (FeedVal.dir d)⟩

theorem claim_C3_witness :
    personalStorageDelete (some [{ name := "p", index := 1 }]) "q"
        = ⟨Except.error ("Pod \"q\" does not exist"), some [{ name := "p", index := 1 }], []⟩ ∧
    removeEntryFromDirectory stEmpty "/nope" "x" false
        = ⟨Except.error ("Data not found"), stEmpty, []⟩ ∧
    (removeEntryFromDirectory stListA "/" "b" false).res = Except.ok () ∧
    (removeEntryFromDirectory stListA "/" "b" false).writes = ["/"] ∧
    feedsLookup (removeEntryFromDirectory stListA "/" "b" false).state.feeds "/"
        = some (nextVersion stListA.feeds "/",
            FeedVal.dir { meta := dListB.meta, fileOrDirNames := some ["_D_a"] }) := by
  have h1 := (claim_C3_delete_missing (some [{ name := "p", index := 1 }]) "q"
    stEmpty "/nope" "x" false (by rfl) (by decide)).1
  have h2 := (claim_C3_delete_missing (some [{ name := "p", index := 1 }]) "q"
    stEmpty "/nope" "x" false (by rfl) (by decide)).2.1 (by rfl)
  have h3 := (claim_C3_delete_missing (some [{ name := "p", index := 1 }]) "q"
    stListA "/" "b" false (by rfl) (by decide)).2.2 1
    { meta := dListB.meta, fileOrDirNames := some ["_D_a"] } (by rfl) (by decide)
  exact ⟨h1, h2, h3.1, h3.2.1, h3.2.2⟩

/-- **C6**: for every valid fresh pod name (already in trimmed form),
`create(n)` appends a pod with index one more than the previous number of
owned pods — index 1 on an empty account — after which the pod list contains
exactly one pod named `n`; a second `create` of the same name fails with the
already-exists error (provided the cap is not hit first). -/
theorem claim_C6_pod_create
    (feed : PodsFeed) (name : String)
    (ht : jsTrim name = name)
    (hval : assertPodName name = Except.ok ())
    (hfresh : ∀ pod ∈ getPodsListPods feed, pod.name ≠ name)
    (hcap : (getPodsListPods feed).length + 2 ≤ MAX_PODS_COUNT) :
    personalStorageCreate feed name
        = ⟨Except.ok (createdPod feed name),
           some (getPodsListPods feed ++ [createdPod feed name]), ["Pods", "rootDir"]⟩ ∧
    (getPodsListPods (personalStorageCreate feed name).feed).filter
        (fun pod => pod.name == name) = [createdPod feed name] ∧
    (personalStorageCreate (personalStorageCreate feed name).feed name).res
        = Except.error ("Pod with name \"" ++ name ++ "\" already exists") := by
  have hany : ((getPodsListPods feed).any (fun pod => pod.name == name)) = false := by
    rw [List.any_eq_false]
    intro pod hpod
    simpa using hfresh pod hpod
  have hcreate : personalStorageCreate feed name
      = ⟨Except.ok (createdPod feed name),
         some (getPodsListPods feed ++ [createdPod feed name]), ["Pods", "rootDir"]⟩ := by
    simp only [personalStorageCreate, ht, hval]
    rw [if_neg (by omega), hany]
    simp
  refine ⟨hcreate, ?_, ?_⟩
  · rw [hcreate]
    have hg : getPodsListPods (some (getPodsListPods feed ++ [createdPod feed name]))
        = getPodsListPods feed ++ [createdPod feed name] := rfl
    have hnil : (getPodsListPods feed).filter (fun pod => pod.name == name) = [] := by
      rw [List.filter_eq_nil_iff]
      intro pod hpod
      simpa using hfresh pod hpod
    rw [hg, List.filter_append, hnil]
    simp [createdPod]
  · rw [hcreate]
    have hg : getPodsListPods (some (getPodsListPods feed ++ [createdPod feed name]))
        = getPodsListPods feed ++ [createdPod feed name] := rfl
    simp only [personalStorageCreate, ht, hval, hg]
    rw [if_neg (by simp only [List.length_append, List.length_cons, List.length_nil]; omega)]
    have hany2 : ((getPodsListPods feed ++ [createdPod feed name]).any
        (fun pod => pod.name == name)) = true := by
      rw [List.any_append]
      have : ([createdPod feed name].any (fun pod => pod.name == name)) = true := by
        simp [createdPod]
      rw [this]
      simp
    rw [hany2]
    simp

theorem claim_C6_witness :
    personalStorageCreate none "mypod"
        = ⟨Except.ok (createdPod none "mypod"), some [createdPod none "mypod"],
           ["Pods", "rootDir"]⟩ ∧
    (getPodsListPods (personalStorageCreate none "mypod").feed).filter
        (fun pod => pod.name == "mypod") = [createdPod none "mypod"] ∧
    (personalStorageCreate (personalStorageCreate none "mypod").feed "mypod").res
        = Except.error ("Pod with name \"mypod\" already exists") := by
  have h := claim_C6_pod_create none "mypod" (by rfl) (by rfl) (by simp [getPodsListPods])
    (by decide)
  exact ⟨by rw [h.1]; rfl, h.2.1, h.2.2⟩

/-- **C10**: pod create and pod delete trim leading and trailing whitespace
from the supplied name before validation and matching: `create(n)` behaves
exactly like `create(n.trim())` and registers a pod named `n.trim()`, and
`delete(n)` behaves exactly like `delete(n.trim())`, so two names differing
only in surrounding whitespace refer to the same pod. -/
theorem claim_C10_trim (feed : PodsFeed) (name : String) :
    personalStorageCreate feed name = personalStorageCreate feed (jsTrim name) ∧
    personalStorageDelete feed name = personalStorageDelete feed (jsTrim name) ∧
    (∀ pod : Pod, (personalStorageCreate feed name).res = Except.ok pod →
      pod.name = jsTrim name) := by
  refine ⟨?_, ?_, ?_⟩
  · simp only [personalStorageCreate, jsTrim_idempotent]
  · simp only [personalStorageDelete, jsTrim_idempotent]
  · intro pod h
    simp only [personalStorageCreate] at h
    cases hval : assertPodName (jsTrim name) with
    | error e =>
      rw [hval] at h
      simp at h
    | ok u =>
      rw [hval] at h
      by_cases h1 : (getPodsListPods feed).length + 1 > MAX_PODS_COUNT
      · rw [if_pos h1] at h
        simp at h
      · rw [if_neg h1] at h
        by_cases h2 : (getPodsListPods feed).any (fun pod => pod.name == jsTrim name) = true
        · rw [if_pos h2] at h
          simp at h
        · rw [if_neg h2] at h
          simp only [Except.ok.injEq] at h
          rw [← h]
          rfl

theorem claim_C10_witness :
    personalStorageCreate none " abc " = personalStorageCreate none (jsTrim " abc ") ∧
    personalStorageDelete none " abc " = personalStorageDelete none (jsTrim " abc ") ∧
    ({ name := "abc", index := 1 } : Pod).name = jsTrim " abc " := by
  refine ⟨(claim_C10_trim none " abc ").1, (claim_C10_trim none " abc ").2.1, ?_⟩
  exact (claim_C10_trim none " abc ").2.2 { name := "abc", index := 1 } (by rfl)

/-! ## Feed writes against the single-owner chunk store (C9, C2) -/

/-- Modelled from the spec: `encryptBytes` of `src/utils/encryption.ts` (not
included in the provided sources).  The symmetric cipher is abstracted as
password-prefixing: deterministic, invertible given the 32-byte password,
and never equal to the plaintext — the properties the claims rely on. -/
def encryptBytes (password data : Bytes) : Bytes := password ++ data

/-- A thrown JavaScript error: `message` is `none` for a throwable that is
not an `Error`. -/
structure JsError where
  message : Option String
deriving Repr, DecidableEq

/-- Modelled from the spec: `CHUNK_ALREADY_EXISTS_ERROR` of
`src/utils/error.ts` (not in the provided sources): the store's
chunk-already-exists message. -/
def CHUNK_ALREADY_EXISTS_ERROR : String := "chunk already exists"

/-- Modelled from the spec: `errorStartWith` of `src/utils/error.ts` (not in
the provided sources): does the error's message start with the given text? -/
def errorStartWith (e : JsError) (s : String) : Bool :=
  match e.message with
  | some m => s.data.isPrefixOf m.data
  | none => false

/-- `getError(e)?.message || 'Unknown error'` of the catch clause: the
message when present and non-empty (JavaScript falsiness), otherwise
`Unknown error`. -/
def errorMessageOrUnknown (e : JsError) : String :=
  match e.message with
  | some m => if m = "" then "Unknown error" else m
  | none => "Unknown error"

/-- Modelled from the spec: `getBmtDataAddress` of `src/utils/bytes.ts` (not
in the provided sources) computes the content (BMT) address of the data;
content addressing is modelled as the identity on bytes. -/
def getBmtDataAddress (data : Bytes) : Bytes := data

/-- A single-owner chunk store: identifiers mapped to stored payloads. -/
abbrev SocStore := List (String × Bytes)

/-- Modelled from the spec (§6): single-owner chunk upload; re-uploading an
already-written identifier fails with the chunk-exists error, otherwise the
payload is stored and its content address returned. -/
def socUpload (store : SocStore) (id : String) (payload : Bytes) :
    Except JsError (SocStore × Bytes) :=
  if (store.find? (fun e => e.1 == id)).isSome then
    Except.error { message := some CHUNK_ALREADY_EXISTS_ERROR }
  else
    Except.ok (store ++ [(id, payload)], getBmtDataAddress payload)

/-- The catch clause of `writeFeedDataRaw` (src/unnamed/part_002): a
chunk-already-exists error becomes a success carrying the content address of
the uploaded data; any other error is re-raised with its message (or
`Unknown error` when it has none). -/
def handleSocUploadError (data : Bytes) (e : JsError) : Except String Bytes :=
  if errorStartWith e CHUNK_ALREADY_EXISTS_ERROR then Except.ok (getBmtDataAddress data)
  else Except.error (errorMessageOrUnknown e)

/-- Embedding of `writeFeedDataRaw` (src/unnamed/part_002): try the
single-owner chunk upload and run every raised error through the catch
clause. -/
def writeFeedDataRawV2 (store : SocStore) (id : String) (data : Bytes) :
    Except String (SocStore × Bytes) :=
  match socUpload store id data with
  | Except.ok r => Except.ok r
  | Except.error e =>
    match handleSocUploadError data e with
    | Except.ok addr => Except.ok (store, addr)
    | Except.error msg => Except.error msg

/-- Embedding of `writeFeedData` (src/unnamed/part_002): encrypt the payload
under the pod password, then `writeFeedDataRaw`. -/
def writeFeedDataV2 (store : SocStore) (id : String) (password data : Bytes) :
    Except String (SocStore × Bytes) :=
  writeFeedDataRawV2 store id (encryptBytes password data)

/-- Embedding of `writeFeedData` (src/feed/api.ts): encrypt the payload
under the pod password and upload the single-owner chunk directly; there is
no try/catch, so every store error — the chunk-exists error included —
propagates to the caller. -/
def writeFeedDataApi (store : SocStore) (id : String) (password data : Bytes) :
    Except JsError (SocStore × Bytes) :=
  socUpload store id (encryptBytes password data)

/-- **C9 counterexample**: the claim quantifies over every feed write, but
`writeFeedData` of `src/feed/api.ts` has no catch clause: when the store
reports that the single-owner chunk already exists, this feed write raises
the error instead of returning successfully. -/
theorem claim_C9_counterexample :
    writeFeedDataApi [("topic1", [0])] "topic1" [1] [2]
        = Except.error { message := some ("chunk already exists") } := by rfl

/-- **C9 (amended)**: for feed writes performed through `writeFeedDataRaw`
(src/unnamed/part_002), a store report that the single-owner chunk already
exists is turned into a successful return carrying the content address of
the (encrypted) data; every other store error is re-raised with its message
preserved (`Unknown error` when the throwable carries no non-empty message).
The `writeFeedData` of `src/feed/api.ts` performs no such handling and
propagates every store error unchanged, the chunk-exists error included. -/
theorem claim_C9_chunk_exists_is_success
    (store : SocStore) (id : String) (password data : Bytes) (e : JsError) (m : String) :
    ((store.find? (fun en => en.1 == id)).isSome = true →
      writeFeedDataV2 store id password data
        = Except.ok (store, getBmtDataAddress (encryptBytes password data))) ∧
    (e.message = some m → CHUNK_ALREADY_EXISTS_ERROR.data.isPrefixOf m.data = false → m ≠ "" →
      handleSocUploadError data e = Except.error m) ∧
    ((store.find? (fun en => en.1 == id)).isSome = true →
      writeFeedDataApi store id password data
        = Except.error { message := some CHUNK_ALREADY_EXISTS_ERROR }) := by
  refine ⟨?_, ?_, ?_⟩
  · intro hsome
    simp only [writeFeedDataV2, writeFeedDataRawV2, socUpload, hsome, if_true,
      handleSocUploadError, errorStartWith]
    rw [if_pos (by decide)]
  · intro hm hpre hne
    simp only [handleSocUploadError, errorStartWith, hm, hpre, Bool.false_eq_true, if_false,
      errorMessageOrUnknown]
    rw [if_neg hne]
  · intro hsome
    simp only [writeFeedDataApi, socUpload, hsome, if_true]

theorem claim_C9_witness :
    writeFeedDataV2 [("topicW", [9])] "topicW" [1] [2]
        = Except.ok ([("topicW", [9])], getBmtDataAddress (encryptBytes [1] [2])) ∧
    handleSocUploadError [2] { message := some ("boom") } = Except.error ("boom") ∧
    writeFeedDataApi [("topicW", [9])] "topicW" [1] [2]
        = Except.error { message := some CHUNK_ALREADY_EXISTS_ERROR } := by
  have h := claim_C9_chunk_exists_is_success [("topicW", [9])] "topicW" [1] [2]
    { message := some ("boom") } "boom"
  exact ⟨h.1 (by rfl), h.2.1 (by rfl) (by decide) (by decide), h.2.2 (by rfl)⟩

/-! ## Block encryption in the two upload paths (C2) -/

/-- The byte-level content store used by the `File.uploadData` embedding:
uploaded byte payloads, reference = index. -/
abbrev ByteStore := List Bytes

/-- `generateBlockName` (src/file/handler.ts):
`'block-' + blockNumber.toString().padStart(5, '0')`. -/
def generateBlockName (blockNumber : Nat) : String :=
  "block-" ++ String.mk (List.replicate (5 - (toString blockNumber).length) '0')
    ++ toString blockNumber

/-- The block upload loop of `File.uploadData` (src/file/file.ts): each slice
is encrypted with the pod password before `uploadBytes`
(`uploadBytes(connection, encryptBytes(pod.password, currentBlock))`); the
manifest entry records the block name, the plaintext slice length and the
new reference. -/
def fileUploadBlocksLoop (store : ByteStore) (password p : Bytes) (b : Nat) :
    ByteStore × List FileBlock :=
  (List.range (totalBlocksCount p.length b)).foldl
    (fun acc i =>
      (acc.1 ++ [encryptBytes password (blockSlice p b i)],
       acc.2 ++ [{ name := some (generateBlockName i), size := (blockSlice p b i).length,
                   compressedSize := (blockSlice p b i).length, reference := acc.1.length }]))
    (store, [])

/-- Modelled from the spec: `blocksToManifest` serializes the manifest to
bytes; kept abstract as an executable flattening of the records. -/
def blocksToManifestBytes (blocks : List FileBlock) : Bytes :=
  (blocks.map (fun blk => [blk.size, blk.compressedSize, blk.reference])).flatten

/-- The manifest upload of `File.uploadData` (src/file/file.ts): the manifest
bytes are encrypted with the pod password before upload
(`encryptBytes(pod.password, stringToBytes(blocksToManifest(blocks)))`). -/
def fileUploadManifest (store : ByteStore) (password : Bytes) (blocks : List FileBlock) :
    ByteStore × Nat :=
  (store ++ [encryptBytes password (blocksToManifestBytes blocks)], store.length)

theorem fileUploadBlocksLoop_fst (store : ByteStore) (password p : Bytes) (b : Nat) :
    (fileUploadBlocksLoop store password p b).1
      = store ++ (List.range (totalBlocksCount p.length b)).map
          (fun i => encryptBytes password (blockSlice p b i)) := by
  unfold fileUploadBlocksLoop
  rw [foldl_range_append_spec (fun i => encryptBytes password (blockSlice p b i))
      (fun i r => ({ name := some (generateBlockName i), size := (blockSlice p b i).length,
                     compressedSize := (blockSlice p b i).length, reference := r } : FileBlock))
      (totalBlocksCount p.length b) store []]

/-- **C2 counterexample**: in `uploadData` of the file handler
(src/unnamed/part_001) the bytes handed to the chunk store for block 0 of
the payload `[1, 2, 3]` at block size 2 are the raw slice `[1, 2]`, which is
not the encryption of that slice under the pod password: pod-password
encryption is not applied to file blocks on this upload path. -/
theorem claim_C2_counterexample :
    ((uploadBlocksLoop [] [1, 2, 3] 2).1)[0]? = some (Chunk.raw [1, 2]) ∧
    Chunk.raw [1, 2] ≠ Chunk.raw (encryptBytes (List.replicate 32 7) [1, 2]) := by
  exact ⟨rfl, by decide⟩

/-- **C2 (amended)**: every metadata payload written through `writeFeedData`
(both the `src/feed/api.ts` version and the raw-based version of
src/unnamed/part_002) reaches the store as `encryptBytes(podPassword, data)`;
`File.uploadData` (src/file/file.ts) encrypts every file block and the
blocks manifest under the pod password before upload.  The `uploadData` of
the file handler (src/unnamed/part_001), however, hands the raw block slices
and the raw manifest bytes to `uploadBytes` (see the counterexample). -/
theorem claim_C2_encrypt_before_upload
    (store : SocStore) (bstore : ByteStore) (id : String) (password data p : Bytes) (b : Nat)
    (hfree : (store.find? (fun en => en.1 == id)).isSome = false) :
    writeFeedDataApi store id password data
        = Except.ok (store ++ [(id, encryptBytes password data)],
            getBmtDataAddress (encryptBytes password data)) ∧
    writeFeedDataV2 store id password data
        = writeFeedDataRawV2 store id (encryptBytes password data) ∧
    (∀ i, i < totalBlocksCount p.length b →
      ((fileUploadBlocksLoop bstore password p b).1)[bstore.length + i]?
        = some (encryptBytes password (blockSlice p b i))) ∧
    ((fileUploadManifest (fileUploadBlocksLoop bstore password p b).1 password
        (fileUploadBlocksLoop bstore password p b).2).1)[(fileUploadBlocksLoop bstore password p b).1.length]?
      = some (encryptBytes password
          (blocksToManifestBytes (fileUploadBlocksLoop bstore password p b).2)) := by
  refine ⟨?_, rfl, ?_, ?_⟩
  · simp only [writeFeedDataApi, socUpload, hfree, Bool.false_eq_true, if_false]
  · intro i hi
    rw [fileUploadBlocksLoop_fst]
    rw [List.getElem?_append_right (by omega)]
    have hidx : bstore.length + i - bstore.length = i := by omega
    rw [hidx, List.getElem?_map, List.getElem?_range hi]
    rfl
  · simp only [fileUploadManifest]
    exact List.getElem?_concat_length _ _

theorem claim_C2_witness :
    writeFeedDataApi [] "topicX" [5] [6]
        = Except.ok ([("topicX", encryptBytes [5] [6])], getBmtDataAddress (encryptBytes [5] [6])) ∧
    ((fileUploadBlocksLoop [] [9] [1, 2, 3] 2).1)[0]?
        = some (encryptBytes [9] (blockSlice [1, 2, 3] 2 0)) ∧
    ((fileUploadManifest (fileUploadBlocksLoop [] [9] [1, 2, 3] 2).1 [9]
        (fileUploadBlocksLoop [] [9] [1, 2, 3] 2).2).1)[(fileUploadBlocksLoop [] [9] [1, 2, 3] 2).1.length]?
      = some (encryptBytes [9]
          (blocksToManifestBytes (fileUploadBlocksLoop [] [9] [1, 2, 3] 2).2)) := by
  have h1 := claim_C2_encrypt_before_upload [] [] "topicX" [5] [6] [1, 2, 3] 2 (by rfl)
  have h2 := claim_C2_encrypt_before_upload [] [] "topicX" [9] [6] [1, 2, 3] 2 (by rfl)
  exact ⟨h1.1, h2.2.2.1 0 (by decide), h2.2.2.2⟩

end Fdp
